import Mathlib

set_option autoImplicit false

/-!
Verification of the KUSP binary-protocol server core (`kusp/io.py` and
`kusp/utils.py`) against its natural-language specification.

The embedding is byte-level: wire bytes are `Nat` values below 256, signed
integers travel as two's-complement little-endian byte strings, and each
IEEE-754 double is carried as its 64-bit pattern (a `Nat` below `2 ^ 64`),
which `np.frombuffer`/`tobytes` preserve exactly.  The socket is modelled by
the list of bytes the peer sends before closing, together with a schedule of
chunk sizes describing how `recv` fragments the stream.
-/

/-- Little-endian base-256 digits of `n`, exactly `w` bytes. -/
def natBytesLE : Nat → Nat → List Nat
  | 0, _ => []
  | w + 1, n => n % 256 :: natBytesLE w (n / 256)

/-- Value of a little-endian base-256 byte string. -/
def bytesToNatLE : List Nat → Nat
  | [] => 0
  | b :: bs => b + 256 * bytesToNatLE bs

/-- Two's-complement little-endian encoding of a signed integer in `w` bytes,
as `struct.pack` / `ndarray.tobytes` produce for `int32`/`int64`. -/
def encodeIntLE (w : Nat) (v : Int) : List Nat :=
  natBytesLE w (v % ((2 : Int) ^ (8 * w))).toNat

/-- Signed interpretation of a `w`-byte two's-complement little-endian byte
string, as `struct.unpack` with format `i`/`q` computes. -/
def decodeIntLE (w : Nat) (bs : List Nat) : Int :=
  let u := bytesToNatLE bs
  if u < 2 ^ (8 * w - 1) then (u : Int) else (u : Int) - 2 ^ (8 * w)

/-- Split a byte string into consecutive blocks of `k` bytes (the final block
may be ragged); mirrors `np.frombuffer` viewing a buffer with itemsize `k`. -/
def chunksOf (k : Nat) (l : List Nat) : List (List Nat) :=
  if _h : l = [] ∨ k = 0 then []
  else l.take k :: chunksOf k (l.drop k)
termination_by l.length
decreasing_by
  rcases not_or.mp _h with ⟨hl, hk⟩
  simp only [List.length_drop]
  exact Nat.sub_lt (List.length_pos.mpr hl) (Nat.pos_of_ne_zero hk)

/-- One request frame of the wire protocol.  `positions` is the list of
`n_atoms` rows, each row the three 64-bit patterns of the coordinates. -/
structure RequestFrame where
  int_width : Nat
  n_atoms : Int
  atomic_numbers : List Int
  positions : List (List Nat)
  contributing : List Int
deriving Repr, DecidableEq

/-- Well-formedness of a synthetic request frame per the layout of the spec:
the width tag is 4 or 8, the atom count is in `[1, max_atoms]` and fits the
selected signed integer width, the three arrays have `n_atoms` entries with
entries in range, and every position row has three coordinates. -/
def RequestFrame.wf (max_atoms : Nat) (f : RequestFrame) : Prop :=
  (f.int_width = 4 ∨ f.int_width = 8) ∧
  1 ≤ f.n_atoms ∧ f.n_atoms ≤ (max_atoms : Int) ∧
  f.n_atoms < (2 : Int) ^ (8 * f.int_width - 1) ∧
  f.atomic_numbers.length = f.n_atoms.toNat ∧
  (∀ z ∈ f.atomic_numbers,
    -((2 : Int) ^ (8 * f.int_width - 1)) ≤ z ∧ z < (2 : Int) ^ (8 * f.int_width - 1)) ∧
  f.positions.length = f.n_atoms.toNat ∧
  (∀ row ∈ f.positions, row.length = 3) ∧
  (∀ row ∈ f.positions, ∀ x ∈ row, x < 2 ^ 64) ∧
  f.contributing.length = f.n_atoms.toNat ∧
  (∀ m ∈ f.contributing, m = 0 ∨ m = 1)

instance (max_atoms : Nat) (f : RequestFrame) : Decidable (f.wf max_atoms) := by
  unfold RequestFrame.wf; infer_instance

/-- Modelled from the spec: the client-side request encoder is not part of
this repository (the peer is the external KIM driver), so the frame layout of
spec section 3 is transcribed directly: 4-byte width tag, `int_width`-byte
atom count, then atomic numbers, row-major float64 positions, and the
contributing mask. -/
def encode_request (f : RequestFrame) : List Nat :=
  encodeIntLE 4 (f.int_width : Int) ++
  encodeIntLE f.int_width f.n_atoms ++
  (f.atomic_numbers.map (encodeIntLE f.int_width)).flatten ++
  ((f.positions.flatten.map (natBytesLE 8)).flatten) ++
  (f.contributing.map (encodeIntLE f.int_width)).flatten

/-- Failure cases of request decoding, matching the `break` sites of
`IPProtocol.serve` in `kusp/io.py`. -/
inductive DecodeError
  | shortRead
  | malformedHeader
  | unsupportedWidth
  | invalidAtomCount
  | shapeError
deriving Repr, DecidableEq

/-- Read exactly `size` bytes from the front of a byte string; a short buffer
is a transport-level failure. -/
def readBytes (size : Nat) (bs : List Nat) : Except DecodeError (List Nat × List Nat) :=
  if size ≤ bs.length then .ok (bs.take size, bs.drop size) else .error .shortRead

/-- Request decoding exactly as the serve loop of `IPProtocol.serve` performs
it: unpack the 4-byte width tag (`struct.unpack` fails unless the buffer has
exactly 4 bytes), insist the tag is 4 or 8, unpack `n_atoms` and bound it by
`(0, max_atoms]`, then read the three payload sections and view them with the
selected dtype, reshaping the coordinates to `(n_atoms, 3)`. -/
def decode_request (max_atoms : Nat) (bs : List Nat) : Except DecodeError RequestFrame :=
  match readBytes 4 bs with
  | .error e => .error e
  | .ok (header, bs1) =>
    if header.length ≠ 4 then .error .malformedHeader
    else
      let int_width := decodeIntLE 4 header
      if ¬(int_width = 4 ∨ int_width = 8) then .error .unsupportedWidth
      else
        let w := int_width.toNat
        match readBytes w bs1 with
        | .error e => .error e
        | .ok (nb, bs2) =>
          let n := decodeIntLE w nb
          if n ≤ 0 ∨ (max_atoms : Int) < n then .error .invalidAtomCount
          else
            let nn := n.toNat
            match readBytes (w * nn) bs2 with
            | .error e => .error e
            | .ok (zb, bs3) =>
              match readBytes (8 * 3 * nn) bs3 with
              | .error e => .error e
              | .ok (rb, bs4) =>
                match readBytes (w * nn) bs4 with
                | .error e => .error e
                | .ok (mb, _) =>
                  let flat := (chunksOf 8 rb).map bytesToNatLE
                  if ¬(flat.length = 3 * nn) then .error .shapeError
                  else
                    .ok ⟨w, n, (chunksOf w zb).map (decodeIntLE w),
                         chunksOf 3 flat, (chunksOf w mb).map (decodeIntLE w)⟩

/-- Connection-level receive failures: `recv_exact` maps a timeout, an OS
error, and an empty chunk (peer close) all to `ConnectionError`. -/
inductive ConnErr
  | peerClosed
  | timedOut
deriving Repr, DecidableEq

/-- Model of `recv_exact` from `kusp/utils.py`.  `data` is what the peer
sends before closing; `cuts` schedules how the transport fragments the
stream: a cut `c` lets one `recv` call deliver up to `c + 1` bytes.  An
exhausted schedule stands for a receive timeout; an empty chunk while bytes
are still owed is the peer having closed.  Returns the received bytes with
the remaining schedule and stream. -/
def recvExact (cuts : List Nat) (data : List Nat) (size : Nat) :
    Except ConnErr (List Nat × List Nat × List Nat) :=
  if size = 0 then .ok ([], cuts, data)
  else
    match cuts with
    | [] => .error .timedOut
    | c :: cs =>
      let k := min (c + 1) (min size data.length)
      if k = 0 then .error .peerClosed
      else
        match recvExact cs (data.drop k) (size - k) with
        | .ok (bs, cuts2, rest) => .ok (data.take k ++ bs, cuts2, rest)
        | .error e => .error e

/-- The pluggable Potential Handler: from atomic numbers, position rows and
the contributing mask it either raises or returns the raw energy and force
payloads it would serialize with `tobytes`. -/
def HandlerFn : Type :=
  List Int → List (List Nat) → List Int → Except Unit (List Nat × List Nat)

/-- State of one accepted socket: the fragmentation schedule and the bytes
still to come from the peer. -/
structure SockSt where
  cuts : List Nat
  data : List Nat
deriving Repr, DecidableEq

/-- How one pass of the request/response body of `IPProtocol.serve` ends:
each non-`replied` constructor is one of the `break` sites. -/
inductive ReqOutcome
  | noHeader
  | malformedHeader
  | unsupportedWidth (w : Int)
  | transportFail
  | invalidAtomCount (n : Int)
  | shapeFail
  | handlerFail
  | replied (resp : List Nat)
deriving Repr, DecidableEq

/-- One iteration of the inner request loop of `IPProtocol.serve`: read and
validate the header, width tag, atom count and payload sections, invoke the
active handler, and on success write `energy.tobytes()` then
`forces.tobytes()`.  Returns the outcome, the remaining socket state, and
whether the active handler was actually invoked. -/
def processRequest (max_atoms : Nat) (handler : Option HandlerFn) (s : SockSt) :
    ReqOutcome × SockSt × Bool :=
  match recvExact s.cuts s.data 4 with
  | .error _ => (.noHeader, s, false)
  | .ok (header, cuts1, data1) =>
    if header.length ≠ 4 then (.malformedHeader, ⟨cuts1, data1⟩, false)
    else
      let int_width := decodeIntLE 4 header
      if ¬(int_width = 4 ∨ int_width = 8) then (.unsupportedWidth int_width, ⟨cuts1, data1⟩, false)
      else
        let w := int_width.toNat
        match recvExact cuts1 data1 w with
        | .error _ => (.transportFail, ⟨cuts1, data1⟩, false)
        | .ok (nb, cuts2, data2) =>
          let n := decodeIntLE w nb
          if n ≤ 0 ∨ (max_atoms : Int) < n then (.invalidAtomCount n, ⟨cuts2, data2⟩, false)
          else
            let nn := n.toNat
            match recvExact cuts2 data2 (w * nn) with
            | .error _ => (.transportFail, ⟨cuts2, data2⟩, false)
            | .ok (zb, cuts3, data3) =>
              match recvExact cuts3 data3 (8 * 3 * nn) with
              | .error _ => (.transportFail, ⟨cuts3, data3⟩, false)
              | .ok (rb, cuts4, data4) =>
                match recvExact cuts4 data4 (w * nn) with
                | .error _ => (.transportFail, ⟨cuts4, data4⟩, false)
                | .ok (mb, cuts5, data5) =>
                  let flat := (chunksOf 8 rb).map bytesToNatLE
                  if ¬(flat.length = 3 * nn) then (.shapeFail, ⟨cuts5, data5⟩, false)
                  else
                    match handler with
                    | none => (.handlerFail, ⟨cuts5, data5⟩, false)
                    | some hf =>
                      match hf ((chunksOf w zb).map (decodeIntLE w))
                               (chunksOf 3 flat)
                               ((chunksOf w mb).map (decodeIntLE w)) with
                      | .error _ => (.handlerFail, ⟨cuts5, data5⟩, true)
                      | .ok (eb, fb) => (.replied (eb ++ fb), ⟨cuts5, data5⟩, true)

/-- The fields of `IPProtocol` that the control flow of `kusp/io.py` touches:
configuration, the listening socket, the running and interrupt flags, the
last-interrupt timestamp, the active handler and the configured source. -/
structure ServerState where
  host : String
  port : Nat
  max_connections : Nat
  reuse_address : Bool
  recv_timeout_s : Rat
  send_timeout_s : Rat
  max_atoms : Nat
  server_socket : Option Nat
  running : Bool
  reload_requested : Bool
  shutdown_requested : Bool
  last_sigint_ts : Rat
  handler : Option HandlerFn
  model_file : Option String

/-- The debounce window `_sigint_window_sec` of `IPProtocol`. -/
def sigintWindowSec : Rat := 2

/-- A `ServerState` carrying the constructor defaults of
`IPProtocol.__init__`. -/
def initState : ServerState :=
  { host := "127.0.0.1", port := 12345, max_connections := 1,
    reuse_address := true, recv_timeout_s := 15, send_timeout_s := 15,
    max_atoms := 1000000000, server_socket := none, running := false,
    reload_requested := false, shutdown_requested := false,
    last_sigint_ts := 0, handler := none, model_file := none }

/-- The SIGINT handler installed by `_install_sigint_handler`: within the
debounce window of the previous interrupt it requests shutdown, otherwise it
requests a reload, and it always records the interrupt time. -/
def onSigint (now : Rat) (s : ServerState) : ServerState :=
  if now - s.last_sigint_ts ≤ sigintWindowSec then
    { s with shutdown_requested := true, last_sigint_ts := now }
  else
    { s with reload_requested := true, last_sigint_ts := now }

/-- Model of `IPProtocol._maybe_reload`.  `load` stands for
`load_kusp_callable` applied to the module environment: loading a source
either yields a handler or raises. -/
def maybeReload (load : String → Except Unit HandlerFn) (s : ServerState) : ServerState :=
  if s.reload_requested = false then s
  else
    let s1 := { s with reload_requested := false }
    match s1.model_file with
    | none => s1
    | some f =>
      match load f with
      | .ok h => { s1 with handler := some h }
      | .error _ => s1

/-- Model of `IPProtocol.start`: a second call while the listening socket
exists returns at once; otherwise the socket is created (`fresh` stands for
the newly bound socket) and the running flag is set. -/
def start (fresh : Nat) (s : ServerState) : ServerState :=
  match s.server_socket with
  | some _ => s
  | none => { s with server_socket := some fresh, running := true }

/-- Why the inner per-connection loop of `IPProtocol.serve` ended: a
non-`replied` request outcome (`break`), the running/shutdown check, or fuel
exhaustion of the model. -/
inductive ConnEnd
  | req (r : ReqOutcome)
  | ctl
  | fuel
deriving Repr, DecidableEq

/-- The inner `while` of `IPProtocol.serve` over one accepted socket: check
the running and shutdown flags, apply any pending reload, process one
request, and loop while requests are answered.  Returns the server state at
close, the responses written, and why the connection ended. -/
def connLoop (load : String → Except Unit HandlerFn) :
    Nat → ServerState → SockSt → List (List Nat) →
    ServerState × List (List Nat) × ConnEnd
  | 0, st, _, acc => (st, acc, .fuel)
  | fuel + 1, st, sock, acc =>
    if st.running && !st.shutdown_requested then
      let st1 := maybeReload load st
      match processRequest st1.max_atoms st1.handler sock with
      | (.replied resp, sock1, _) => connLoop load fuel st1 sock1 (acc ++ [resp])
      | (out, _, _) => (st1, acc, .req out)
    else (st, acc, .ctl)

/-- The accept loop of `IPProtocol.serve`: while running and not shutting
down, apply any pending reload, then poll `accept`.  `conns` schedules the
accept results (`none` is a poll timeout tick); each accepted socket is
served to completion by `connLoop` before the next accept. -/
def serveLoop (load : String → Except Unit HandlerFn) :
    Nat → Nat → ServerState → List (Option SockSt) →
    List (List (List Nat) × ConnEnd) →
    ServerState × List (List (List Nat) × ConnEnd)
  | 0, _, st, _, acc => (st, acc)
  | fuel + 1, cfuel, st, conns, acc =>
    if st.running && !st.shutdown_requested then
      let st1 := maybeReload load st
      match conns with
      | [] => (st1, acc)
      | none :: rest => serveLoop load fuel cfuel st1 rest acc
      | some sock :: rest =>
        let r := connLoop load cfuel st1 sock []
        serveLoop load fuel cfuel r.1 rest (acc ++ [(r.2.1, r.2.2)])
    else (st, acc)

/-- Concrete one-atom silicon frame used by witnesses. -/
def frame0 : RequestFrame :=
  ⟨4, 1, [14], [[4607182418800017408, 0, 4611686018427387904]], [1]⟩

/-- Concrete handler that always succeeds, used by witnesses. -/
def handlerOk : HandlerFn := fun _ _ _ => .ok ([1, 2], [3, 4])

/-- Concrete handler that always raises, used by witnesses. -/
def handlerBad : HandlerFn := fun _ _ _ => .error ()

/-- Loader whose source always loads `handlerOk`, used by witnesses. -/
def loadOk : String → Except Unit HandlerFn := fun _ => .ok handlerOk

/-- Loader whose source always fails to load, used by witnesses. -/
def loadBad : String → Except Unit HandlerFn := fun _ => .error ()

/-- A server state in mid-serve shape used by witnesses: bound socket,
running, no pending flags, active handler `handlerBad`. -/
def stateServing : ServerState :=
  { initState with server_socket := some 1, running := true,
                   handler := some handlerBad, max_atoms := 10 }

/-- A server state with a pending reload request and a configured model file,
used by witnesses. -/
def stateReload : ServerState :=
  { initState with reload_requested := true, model_file := some "model.py",
                   handler := some handlerBad }

/-! Helper lemmas about the byte-level primitives. -/

theorem natBytesLE_length (w n : Nat) : (natBytesLE w n).length = w := by
  induction w generalizing n with
  | zero => rfl
  | succ w ih => simp [natBytesLE, ih]

theorem bytesToNatLE_natBytesLE (w n : Nat) (h : n < 256 ^ w) :
    bytesToNatLE (natBytesLE w n) = n := by
  induction w generalizing n with
  | zero =>
    have : n = 0 := Nat.lt_one_iff.mp (by simpa using h)
    simp [this, natBytesLE, bytesToNatLE]
  | succ w ih =>
    have hdiv : n / 256 < 256 ^ w := by
      apply Nat.div_lt_of_lt_mul
      rw [pow_succ] at h
      omega
    simp only [natBytesLE, bytesToNatLE, ih (n / 256) hdiv]
    exact Nat.mod_add_div n 256

theorem encodeIntLE_length (w : Nat) (v : Int) : (encodeIntLE w v).length = w :=
  natBytesLE_length w _

theorem decodeIntLE_encodeIntLE (w : Nat) (hw : 0 < w) (v : Int)
    (hlo : -((2 : Int) ^ (8 * w - 1)) ≤ v) (hhi : v < (2 : Int) ^ (8 * w - 1)) :
    decodeIntLE w (encodeIntLE w v) = v := by
  have h8 : 8 * w - 1 + 1 = 8 * w := by omega
  have hM2 : (2 : Int) ^ (8 * w) = 2 * 2 ^ (8 * w - 1) := by
    conv_lhs => rw [← h8]
    rw [pow_succ]; ring
  have hMpos : (0 : Int) < 2 ^ (8 * w) := by positivity
  have hmod_lo : (0 : Int) ≤ v % 2 ^ (8 * w) := Int.emod_nonneg v (ne_of_gt hMpos)
  have hmod_hi : v % 2 ^ (8 * w) < 2 ^ (8 * w) := Int.emod_lt_of_pos v hMpos
  have hcastI : ((256 : Int)) ^ w = 2 ^ (8 * w) := by
    rw [show ((256 : Int)) = 2 ^ 8 by norm_num, ← pow_mul]
  have hu_lt : (v % 2 ^ (8 * w)).toNat < 256 ^ w := by
    have h1 : ((v % 2 ^ (8 * w)).toNat : Int) < ((256 : Nat) ^ w : Int) := by
      rw [Int.toNat_of_nonneg hmod_lo]
      push_cast
      rw [hcastI]
      exact hmod_hi
    exact_mod_cast h1
  have hround := bytesToNatLE_natBytesLE w _ hu_lt
  simp only [decodeIntLE, encodeIntLE]
  rw [hround]
  rcases le_or_lt 0 v with hpos | hneg
  · have hvM : v < 2 ^ (8 * w) := lt_of_lt_of_le hhi (by nlinarith)
    have hmod : v % 2 ^ (8 * w) = v := Int.emod_eq_of_lt hpos hvM
    have hcond : v.toNat < 2 ^ (8 * w - 1) := by
      have h2 : (v.toNat : Int) < ((2 ^ (8 * w - 1) : Nat) : Int) := by
        rw [Int.toNat_of_nonneg hpos]
        push_cast
        exact hhi
      exact_mod_cast h2
    rw [hmod, if_pos hcond]
    exact Int.toNat_of_nonneg hpos
  · have hvM : v + 2 ^ (8 * w) < 2 ^ (8 * w) := by linarith
    have hv0 : 0 ≤ v + 2 ^ (8 * w) := by nlinarith
    have hmod : v % 2 ^ (8 * w) = v + 2 ^ (8 * w) := by
      have h1 : (v + 2 ^ (8 * w) * 1) % 2 ^ (8 * w) = v % 2 ^ (8 * w) :=
        Int.add_mul_emod_self_left v (2 ^ (8 * w)) 1
      rw [mul_one] at h1
      rw [← h1, Int.emod_eq_of_lt hv0 hvM]
    have hcond : ¬((v + 2 ^ (8 * w)).toNat < 2 ^ (8 * w - 1)) := by
      intro hcon
      have h3 : ((v + 2 ^ (8 * w)).toNat : Int) = v + 2 ^ (8 * w) :=
        Int.toNat_of_nonneg hv0
      have h4 : ((v + 2 ^ (8 * w)).toNat : Int) < ((2 ^ (8 * w - 1) : Nat) : Int) := by
        exact_mod_cast hcon
      rw [h3] at h4
      push_cast at h4
      nlinarith
    rw [hmod, if_neg hcond]
    rw [Int.toNat_of_nonneg hv0]
    ring

theorem chunksOf_nil (k : Nat) : chunksOf k [] = [] := by
  rw [chunksOf]; simp

theorem chunksOf_flatten_const (k : Nat) (hk : 0 < k) (blocks : List (List Nat))
    (hb : ∀ b ∈ blocks, b.length = k) :
    chunksOf k blocks.flatten = blocks := by
  induction blocks with
  | nil => simpa using chunksOf_nil k
  | cons b bs ih =>
    have hbl : b.length = k := hb b (by simp)
    have hbne : b ++ bs.flatten ≠ [] := by
      have : 0 < b.length := hbl ▸ hk
      rcases b with _ | ⟨x, xs⟩
      · simp at this
      · simp
    rw [List.flatten_cons, chunksOf]
    rw [dif_neg (by push_neg; exact ⟨hbne, by omega⟩)]
    rw [← hbl, List.take_left, List.drop_left, hbl]
    rw [ih (fun x hx => hb x (by simp [hx]))]

theorem length_flatten_const (w : Nat) (l : List (List Nat))
    (h : ∀ b ∈ l, b.length = w) :
    l.flatten.length = w * l.length := by
  induction l with
  | nil => simp
  | cons b bs ih =>
    have := h b (by simp)
    simp only [List.flatten_cons, List.length_append, List.length_cons,
      ih (fun x hx => h x (by simp [hx])), this]
    ring

theorem decodeInts_encodeInts (w : Nat) (hw : 0 < w) (zs : List Int)
    (hz : ∀ z ∈ zs, -((2 : Int) ^ (8 * w - 1)) ≤ z ∧ z < (2 : Int) ^ (8 * w - 1)) :
    (chunksOf w ((zs.map (encodeIntLE w)).flatten)).map (decodeIntLE w) = zs := by
  rw [chunksOf_flatten_const w hw _ (by
    intro b hb
    rcases List.mem_map.mp hb with ⟨z, _, rfl⟩
    exact encodeIntLE_length w z)]
  rw [List.map_map]
  have : zs.map (decodeIntLE w ∘ encodeIntLE w) = zs.map id := by
    apply List.map_congr_left
    intro z hzmem
    rcases hz z hzmem with ⟨h1, h2⟩
    exact decodeIntLE_encodeIntLE w hw z h1 h2
  simpa using this

theorem decodeWords_encodeWords (ws : List Nat) (hw : ∀ x ∈ ws, x < 2 ^ 64) :
    (chunksOf 8 ((ws.map (natBytesLE 8)).flatten)).map bytesToNatLE = ws := by
  rw [chunksOf_flatten_const 8 (by norm_num) _ (by
    intro b hb
    rcases List.mem_map.mp hb with ⟨x, _, rfl⟩
    exact natBytesLE_length 8 x)]
  rw [List.map_map]
  have : ws.map (bytesToNatLE ∘ natBytesLE 8) = ws.map id := by
    apply List.map_congr_left
    intro x hx
    exact bytesToNatLE_natBytesLE 8 x (by
      have := hw x hx
      norm_num
      omega)
  simpa using this

theorem readBytes_append (n : Nat) (a b : List Nat) (h : a.length = n) :
    readBytes n (a ++ b) = .ok (a, b) := by
  subst h
  simp [readBytes, List.take_left, List.drop_left]

theorem readBytes_full (n : Nat) (a : List Nat) (h : a.length = n) :
    readBytes n a = .ok (a, []) := by
  have h1 := readBytes_append n a [] h
  simpa using h1

theorem recvExact_ok_spec :
    ∀ (cuts data : List Nat) (size : Nat) (bs cuts2 rest : List Nat),
      recvExact cuts data size = .ok (bs, cuts2, rest) →
      bs.length = size ∧ bs = data.take size ∧ rest = data.drop size := by
  intro cuts
  induction cuts with
  | nil =>
    intro data size bs cuts2 rest h
    by_cases hs : size = 0
    · subst hs
      rw [recvExact] at h
      simp only [if_pos rfl, Except.ok.injEq, Prod.mk.injEq] at h
      obtain ⟨rfl, -, rfl⟩ := h
      simp
    · rw [recvExact, if_neg hs] at h
      simp at h
  | cons c cs ih =>
    intro data size bs cuts2 rest h
    by_cases hs : size = 0
    · subst hs
      rw [recvExact] at h
      simp only [if_pos rfl, Except.ok.injEq, Prod.mk.injEq] at h
      obtain ⟨rfl, -, rfl⟩ := h
      simp
    · rw [recvExact, if_neg hs] at h
      simp only at h
      by_cases hk0 : min (c + 1) (min size data.length) = 0
      · rw [if_pos hk0] at h; simp at h
      · rw [if_neg hk0] at h
        cases hrec : recvExact cs (data.drop (min (c + 1) (min size data.length)))
            (size - min (c + 1) (min size data.length)) with
        | error e => rw [hrec] at h; simp at h
        | ok trio =>
          obtain ⟨bs', cuts2', rest'⟩ := trio
          rw [hrec] at h
          simp only [Except.ok.injEq, Prod.mk.injEq] at h
          obtain ⟨hbs, -, hrest⟩ := h
          obtain ⟨h1, h2, h3⟩ := ih _ _ bs' cuts2' rest' hrec
          have hkle : min (c + 1) (min size data.length) ≤ size :=
            le_trans (min_le_right _ _) (min_le_left _ _)
          have hklen : min (c + 1) (min size data.length) ≤ data.length :=
            le_trans (min_le_right _ _) (min_le_right _ _)
          refine ⟨?_, ?_, ?_⟩
          · rw [← hbs, List.length_append, List.length_take, h1]
            omega
          · rw [← hbs, h2, ← List.take_add]
            congr 1
            omega
          · rw [← hrest, h3, List.drop_drop]
            congr 1
            omega

theorem recvExact_step (c : Nat) (cs : List Nat) (data : List Nat) (size : Nat)
    (h0 : size ≠ 0) (hc : size ≤ c + 1) (hd : size ≤ data.length) :
    recvExact (c :: cs) data size = .ok (data.take size, cs, data.drop size) := by
  have h1 : min size data.length = size := min_eq_left hd
  have h2 : min (c + 1) size = size := min_eq_right hc
  rw [recvExact, if_neg h0]
  simp only [h1, h2, if_neg h0, Nat.sub_self]
  rw [recvExact.eq_def]
  simp

theorem recvExact_nil_data (cuts : List Nat) (size : Nat) (h0 : size ≠ 0) :
    ∃ e, recvExact cuts [] size = .error e := by
  cases cuts with
  | nil => exact ⟨.timedOut, by rw [recvExact, if_neg h0]⟩
  | cons c cs =>
    refine ⟨.peerClosed, ?_⟩
    rw [recvExact, if_neg h0]
    simp

/-- C1: for every well-formed synthetic request frame built per the section-3
layout, decoding the encoded bytes the way the serve loop does recovers
exactly the original frame: the width tag, the atom count, `n_atoms` atomic
numbers in the selected integer dtype, the positions reshaped to `n_atoms`
rows of three float64 words, and `n_atoms` contributing-mask entries. -/
theorem decodeRequest_encodeRequest (max_atoms : Nat) (f : RequestFrame)
    (hwf : f.wf max_atoms) :
    decode_request max_atoms (encode_request f) = .ok f := by
  obtain ⟨wid, na, zs, ps, ms⟩ := f
  simp only [RequestFrame.wf] at hwf
  obtain ⟨hwid, hn1, hn2, hnrep, hzlen, hzrange, hplen, hrow3, hwords, hmlen, hmrange⟩ := hwf
  have hw0 : 0 < wid := by rcases hwid with h | h <;> omega
  simp only [encode_request]
  simp only [List.append_assoc]
  set A := encodeIntLE 4 (wid : Int) with hAdef
  set B := encodeIntLE wid na with hBdef
  set C := (zs.map (encodeIntLE wid)).flatten with hCdef
  set D := ((ps.flatten.map (natBytesLE 8)).flatten) with hDdef
  set E := (ms.map (encodeIntLE wid)).flatten with hEdef
  have hA : A.length = 4 := encodeIntLE_length 4 _
  have hB : B.length = wid := encodeIntLE_length wid _
  have hC : C.length = wid * na.toNat := by
    rw [hCdef, length_flatten_const wid _ (by
      intro b hb
      rcases List.mem_map.mp hb with ⟨z, -, rfl⟩
      exact encodeIntLE_length wid z), List.length_map, hzlen]
  have hflat_len : ps.flatten.length = 3 * na.toNat := by
    rw [length_flatten_const 3 ps hrow3, hplen]
  have hD : D.length = 8 * 3 * na.toNat := by
    rw [hDdef, length_flatten_const 8 _ (by
      intro b hb
      rcases List.mem_map.mp hb with ⟨x, -, rfl⟩
      exact natBytesLE_length 8 x), List.length_map, hflat_len]
    ring
  have hE : E.length = wid * na.toNat := by
    rw [hEdef, length_flatten_const wid _ (by
      intro b hb
      rcases List.mem_map.mp hb with ⟨m, -, rfl⟩
      exact encodeIntLE_length wid m), List.length_map, hmlen]
  have hwor : ((wid : Int) = 4 ∨ (wid : Int) = 8) := by
    rcases hwid with h | h <;> subst h <;> simp
  have hdecA : decodeIntLE 4 A = (wid : Int) := by
    rw [hAdef]
    apply decodeIntLE_encodeIntLE 4 (by norm_num)
    · rcases hwor with h | h <;> rw [h] <;> norm_num
    · rcases hwor with h | h <;> rw [h] <;> norm_num
  have hdecB : decodeIntLE wid B = na := by
    rw [hBdef]
    apply decodeIntLE_encodeIntLE wid hw0
    · have hp : (0:Int) ≤ 2 ^ (8 * wid - 1) := by positivity
      linarith
    · exact hnrep
  have hreadA : readBytes 4 (A ++ (B ++ (C ++ (D ++ E)))) = .ok (A, B ++ (C ++ (D ++ E))) :=
    readBytes_append _ _ _ hA
  have hreadB : readBytes wid (B ++ (C ++ (D ++ E))) = .ok (B, C ++ (D ++ E)) :=
    readBytes_append _ _ _ hB
  have hreadC : readBytes (wid * na.toNat) (C ++ (D ++ E)) = .ok (C, D ++ E) :=
    readBytes_append _ _ _ hC
  have hreadD : readBytes (8 * 3 * na.toNat) (D ++ E) = .ok (D, E) :=
    readBytes_append _ _ _ hD
  have hreadE : readBytes (wid * na.toNat) E = .ok (E, []) :=
    readBytes_full _ _ hE
  have hZ : (chunksOf wid C).map (decodeIntLE wid) = zs := by
    rw [hCdef]; exact decodeInts_encodeInts wid hw0 zs hzrange
  have hflat : (chunksOf 8 D).map bytesToNatLE = ps.flatten := by
    rw [hDdef]
    exact decodeWords_encodeWords ps.flatten (by
      intro x hx
      rcases List.mem_flatten.mp hx with ⟨row, hrow, hxrow⟩
      exact hwords row hrow x hxrow)
  have hR : chunksOf 3 ps.flatten = ps := chunksOf_flatten_const 3 (by norm_num) ps hrow3
  have hmrange2 : ∀ m ∈ ms, -((2:Int) ^ (8 * wid - 1)) ≤ m ∧ m < (2:Int) ^ (8 * wid - 1) := by
    intro m hm
    have hle : 1 ≤ 8 * wid - 1 := by omega
    have h1 : (1:Int) < 2 ^ (8 * wid - 1) := by
      calc (1:Int) < 2 ^ 1 := by norm_num
        _ ≤ 2 ^ (8 * wid - 1) := pow_le_pow_right₀ (by norm_num) hle
    have hp : (0:Int) ≤ 2 ^ (8 * wid - 1) := by positivity
    rcases hmrange m hm with rfl | rfl
    · constructor <;> linarith
    · constructor <;> linarith
  have hM : (chunksOf wid E).map (decodeIntLE wid) = ms := by
    rw [hEdef]; exact decodeInts_encodeInts wid hw0 ms hmrange2
  have hbound : ¬(na ≤ 0 ∨ (max_atoms : Int) < na) := by
    push_neg
    constructor <;> linarith
  rw [decode_request, hreadA]
  simp only [hA, ne_eq, hdecA, Int.toNat_natCast, hreadB, hdecB, hreadC, hreadD, hreadE,
    hZ, hflat, hR, hM, hflat_len]
  rw [if_neg (by simp), if_neg (not_not_intro hwor), if_neg hbound, if_neg (by simp)]

/-- Witness for C1 at a concrete one-atom frame. -/
theorem decodeRequest_encodeRequest_witness :
    frame0.wf 10 ∧ decode_request 10 (encode_request frame0) = .ok frame0 :=
  ⟨by decide, decodeRequest_encodeRequest 10 frame0 (by decide)⟩

theorem recvExact_append (c : Nat) (cs : List Nat) (a b : List Nat) (size : Nat)
    (h0 : size ≠ 0) (hc : size ≤ c + 1) (ha : a.length = size) :
    recvExact (c :: cs) (a ++ b) size = .ok (a, cs, b) := by
  subst ha
  rw [recvExact_step c cs (a ++ b) a.length h0 hc (by simp)]
  rw [List.take_left, List.drop_left]

theorem processRequest_encode (max_atoms : Nat) (f : RequestFrame)
    (hwf : f.wf max_atoms) (handler : Option HandlerFn) :
    processRequest max_atoms handler
        ⟨List.replicate 5 (encode_request f).length, encode_request f⟩ =
      match handler with
      | none => (.handlerFail, ⟨[], []⟩, false)
      | some hf =>
        match hf f.atomic_numbers f.positions f.contributing with
        | .error _ => (.handlerFail, ⟨[], []⟩, true)
        | .ok (eb, fb) => (.replied (eb ++ fb), ⟨[], []⟩, true) := by
  have hLlen : (encode_request f).length =
      4 + f.int_width + f.int_width * f.n_atoms.toNat + 8 * 3 * f.n_atoms.toNat
        + f.int_width * f.n_atoms.toNat := by
    obtain ⟨wid, na, zs, ps, ms⟩ := f
    simp only [RequestFrame.wf] at hwf
    obtain ⟨hwid, hn1, hn2, hnrep, hzlen, hzrange, hplen, hrow3, hwords, hmlen, hmrange⟩ := hwf
    simp only [encode_request, List.length_append]
    rw [encodeIntLE_length, encodeIntLE_length,
      length_flatten_const wid _ (by
        intro b hb
        rcases List.mem_map.mp hb with ⟨z, -, rfl⟩
        exact encodeIntLE_length wid z),
      length_flatten_const 8 _ (by
        intro b hb
        rcases List.mem_map.mp hb with ⟨x, -, rfl⟩
        exact natBytesLE_length 8 x),
      length_flatten_const wid _ (by
        intro b hb
        rcases List.mem_map.mp hb with ⟨m, -, rfl⟩
        exact encodeIntLE_length wid m)]
    simp only [List.length_map]
    rw [hzlen, hmlen, length_flatten_const 3 ps hrow3, hplen]
    ring
  obtain ⟨wid, na, zs, ps, ms⟩ := f
  simp only [RequestFrame.wf] at hwf
  obtain ⟨hwid, hn1, hn2, hnrep, hzlen, hzrange, hplen, hrow3, hwords, hmlen, hmrange⟩ := hwf
  have hw0 : 0 < wid := by rcases hwid with h | h <;> omega
  have hna0 : 0 < na.toNat := by omega
  simp only at hLlen
  simp only [encode_request, List.append_assoc] at hLlen ⊢
  set A := encodeIntLE 4 (wid : Int) with hAdef
  set B := encodeIntLE wid na with hBdef
  set C := (zs.map (encodeIntLE wid)).flatten with hCdef
  set D := ((ps.flatten.map (natBytesLE 8)).flatten) with hDdef
  set E := (ms.map (encodeIntLE wid)).flatten with hEdef
  have hA : A.length = 4 := encodeIntLE_length 4 _
  have hB : B.length = wid := encodeIntLE_length wid _
  have hC : C.length = wid * na.toNat := by
    rw [hCdef, length_flatten_const wid _ (by
      intro b hb
      rcases List.mem_map.mp hb with ⟨z, -, rfl⟩
      exact encodeIntLE_length wid z), List.length_map, hzlen]
  have hflat_len : ps.flatten.length = 3 * na.toNat := by
    rw [length_flatten_const 3 ps hrow3, hplen]
  have hD : D.length = 8 * 3 * na.toNat := by
    rw [hDdef, length_flatten_const 8 _ (by
      intro b hb
      rcases List.mem_map.mp hb with ⟨x, -, rfl⟩
      exact natBytesLE_length 8 x), List.length_map, hflat_len]
    ring
  have hE : E.length = wid * na.toNat := by
    rw [hEdef, length_flatten_const wid _ (by
      intro b hb
      rcases List.mem_map.mp hb with ⟨m, -, rfl⟩
      exact encodeIntLE_length wid m), List.length_map, hmlen]
  have hwor : ((wid : Int) = 4 ∨ (wid : Int) = 8) := by
    rcases hwid with h | h <;> subst h <;> simp
  have hdecA : decodeIntLE 4 A = (wid : Int) := by
    rw [hAdef]
    apply decodeIntLE_encodeIntLE 4 (by norm_num)
    · rcases hwor with h | h <;> rw [h] <;> norm_num
    · rcases hwor with h | h <;> rw [h] <;> norm_num
  have hdecB : decodeIntLE wid B = na := by
    rw [hBdef]
    apply decodeIntLE_encodeIntLE wid hw0
    · have hp : (0:Int) ≤ 2 ^ (8 * wid - 1) := by positivity
      linarith
    · exact hnrep
  set L := (A ++ (B ++ (C ++ (D ++ E)))).length with hLdef
  have hLbig : ∀ s : Nat, s ≤ L → s ≤ L + 1 := by omega
  have hL : L = 4 + wid + wid * na.toNat + 8 * 3 * na.toNat + wid * na.toNat := hLlen
  have hrecvA : recvExact (List.replicate 5 L) (A ++ (B ++ (C ++ (D ++ E)))) 4 =
      .ok (A, List.replicate 4 L, B ++ (C ++ (D ++ E))) := by
    have := recvExact_append L (List.replicate 4 L) A (B ++ (C ++ (D ++ E))) 4
      (by norm_num) (by omega) hA
    simpa using this
  have hrecvB : recvExact (List.replicate 4 L) (B ++ (C ++ (D ++ E))) wid =
      .ok (B, List.replicate 3 L, C ++ (D ++ E)) := by
    have := recvExact_append L (List.replicate 3 L) B (C ++ (D ++ E)) wid
      (by omega) (by omega) hB
    simpa using this
  have hrecvC : recvExact (List.replicate 3 L) (C ++ (D ++ E)) (wid * na.toNat) =
      .ok (C, List.replicate 2 L, D ++ E) := by
    have := recvExact_append L (List.replicate 2 L) C (D ++ E) (wid * na.toNat)
      (by positivity) (by omega) hC
    simpa using this
  have hrecvD : recvExact (List.replicate 2 L) (D ++ E) (8 * 3 * na.toNat) =
      .ok (D, List.replicate 1 L, E) := by
    have := recvExact_append L (List.replicate 1 L) D E (8 * 3 * na.toNat)
      (by positivity) (by omega) hD
    simpa using this
  have hrecvE : recvExact (List.replicate 1 L) E (wid * na.toNat) =
      .ok (E, [], []) := by
    have h1 := recvExact_append L ([] : List Nat) E [] (wid * na.toNat)
      (by positivity) (by omega) hE
    simpa using h1
  have hZ : (chunksOf wid C).map (decodeIntLE wid) = zs := by
    rw [hCdef]; exact decodeInts_encodeInts wid hw0 zs hzrange
  have hflat : (chunksOf 8 D).map bytesToNatLE = ps.flatten := by
    rw [hDdef]
    exact decodeWords_encodeWords ps.flatten (by
      intro x hx
      rcases List.mem_flatten.mp hx with ⟨row, hrow, hxrow⟩
      exact hwords row hrow x hxrow)
  have hR : chunksOf 3 ps.flatten = ps := chunksOf_flatten_const 3 (by norm_num) ps hrow3
  have hmrange2 : ∀ m ∈ ms, -((2:Int) ^ (8 * wid - 1)) ≤ m ∧ m < (2:Int) ^ (8 * wid - 1) := by
    intro m hm
    have hle : 1 ≤ 8 * wid - 1 := by omega
    have h1 : (1:Int) < 2 ^ (8 * wid - 1) := by
      calc (1:Int) < 2 ^ 1 := by norm_num
        _ ≤ 2 ^ (8 * wid - 1) := pow_le_pow_right₀ (by norm_num) hle
    have hp : (0:Int) ≤ 2 ^ (8 * wid - 1) := by positivity
    rcases hmrange m hm with rfl | rfl
    · constructor <;> linarith
    · constructor <;> linarith
  have hM : (chunksOf wid E).map (decodeIntLE wid) = ms := by
    rw [hEdef]; exact decodeInts_encodeInts wid hw0 ms hmrange2
  have hbound : ¬(na ≤ 0 ∨ (max_atoms : Int) < na) := by
    push_neg
    constructor <;> linarith
  rw [processRequest]
  simp only [hrecvA, hA, ne_eq, hdecA, Int.toNat_natCast, hrecvB, hdecB, hrecvC, hrecvD,
    hrecvE, hZ, hflat, hR, hM, hflat_len]
  rw [if_neg (by simp), if_neg (not_not_intro hwor), if_neg hbound, if_neg (by simp)]

theorem take_append_of_length (n : Nat) (a b : List Nat) (h : a.length = n) :
    (a ++ b).take n = a := by
  subst h; exact List.take_left a b

theorem drop_append_of_length (n : Nat) (a b : List Nat) (h : a.length = n) :
    (a ++ b).drop n = b := by
  subst h; exact List.drop_left a b

theorem width_tag_in_int32 (w : Int) (hw : w = 4 ∨ w = 8) :
    decodeIntLE 4 (encodeIntLE 4 w) = w := by
  apply decodeIntLE_encodeIntLE 4 (by norm_num)
  · rcases hw with h | h <;> rw [h] <;> norm_num
  · rcases hw with h | h <;> rw [h] <;> norm_num

/-- C2: a request whose decoded atom count is zero, negative, or above
`max_atoms` never reaches the Potential Handler: the handler-invoked flag is
false and no response is produced, for every fragmentation schedule of the
connection (the serve loop breaks at the bounds check, or earlier on a
transport failure). -/
theorem invalidAtomCount_no_handler (max_atoms : Nat) (handler : Option HandlerFn)
    (cuts rest : List Nat) (w n : Int)
    (hw : w = 4 ∨ w = 8)
    (hbad : n ≤ 0 ∨ (max_atoms : Int) < n)
    (hlo : -((2 : Int) ^ (8 * w.toNat - 1)) ≤ n) (hhi : n < (2 : Int) ^ (8 * w.toNat - 1)) :
    (processRequest max_atoms handler
        ⟨cuts, encodeIntLE 4 w ++ (encodeIntLE w.toNat n ++ rest)⟩).2.2 = false ∧
    ∀ r, (processRequest max_atoms handler
        ⟨cuts, encodeIntLE 4 w ++ (encodeIntLE w.toNat n ++ rest)⟩).1 ≠ .replied r := by
  have hw0 : 0 < w.toNat := by rcases hw with h | h <;> subst h <;> norm_num
  have hdecw : decodeIntLE 4 (encodeIntLE 4 w) = w := width_tag_in_int32 w hw
  have hdecn : decodeIntLE w.toNat (encodeIntLE w.toNat n) = n :=
    decodeIntLE_encodeIntLE w.toNat hw0 n hlo hhi
  rw [processRequest]
  cases hh : recvExact cuts (encodeIntLE 4 w ++ (encodeIntLE w.toNat n ++ rest)) 4 with
  | error e => simp
  | ok trio =>
    obtain ⟨hd, cuts1, d1⟩ := trio
    obtain ⟨hlen, hhd, hd1⟩ := recvExact_ok_spec _ _ _ _ _ _ hh
    rw [take_append_of_length 4 _ _ (encodeIntLE_length 4 w)] at hhd
    rw [drop_append_of_length 4 _ _ (encodeIntLE_length 4 w)] at hd1
    subst hhd
    subst hd1
    simp only
    rw [if_neg (by simp [hlen]), hdecw]
    rw [if_neg (not_not_intro hw)]
    cases hh2 : recvExact cuts1 (encodeIntLE w.toNat n ++ rest) w.toNat with
    | error e => simp
    | ok trio2 =>
      obtain ⟨nb, cuts2, d2⟩ := trio2
      obtain ⟨hlen2, hnb, hd2⟩ := recvExact_ok_spec _ _ _ _ _ _ hh2
      rw [take_append_of_length _ _ _ (encodeIntLE_length w.toNat n)] at hnb
      subst hnb
      simp only [hdecn]
      rw [if_pos hbad]
      simp

/-- C6: a 4-byte width tag that decodes to anything other than 4 or 8 closes
the connection before `n_atoms` or any payload is read and before the handler
is consulted: whenever the header is delivered, the outcome is
`unsupportedWidth` and the socket has advanced exactly past the 4 tag bytes;
and when the tag is 4 or 8 this failure path is never taken, for any request
bytes whatsoever. -/
theorem unsupportedWidth_closes (max_atoms : Nat) :
    (∀ (handler : Option HandlerFn) (cuts rest : List Nat) (w : Int),
      ¬(w = 4 ∨ w = 8) → -((2 : Int) ^ 31) ≤ w → w < (2 : Int) ^ 31 →
      (processRequest max_atoms handler ⟨cuts, encodeIntLE 4 w ++ rest⟩).2.2 = false ∧
      (∀ r, (processRequest max_atoms handler ⟨cuts, encodeIntLE 4 w ++ rest⟩).1 ≠ .replied r) ∧
      ((processRequest max_atoms handler ⟨cuts, encodeIntLE 4 w ++ rest⟩).1 = .noHeader ∨
       ((processRequest max_atoms handler ⟨cuts, encodeIntLE 4 w ++ rest⟩).1 = .unsupportedWidth w ∧
        (processRequest max_atoms handler ⟨cuts, encodeIntLE 4 w ++ rest⟩).2.1.data = rest))) ∧
    (∀ (handler : Option HandlerFn) (s : SockSt),
      (decodeIntLE 4 (s.data.take 4) = 4 ∨ decodeIntLE 4 (s.data.take 4) = 8) →
      ∀ v, (processRequest max_atoms handler s).1 ≠ .unsupportedWidth v) := by
  constructor
  · intro handler cuts rest w hwbad hwlo hwhi
    have hdecw : decodeIntLE 4 (encodeIntLE 4 w) = w := by
      apply decodeIntLE_encodeIntLE 4 (by norm_num)
      · simpa using hwlo
      · simpa using hwhi
    rw [processRequest]
    cases hh : recvExact cuts (encodeIntLE 4 w ++ rest) 4 with
    | error e => simp
    | ok trio =>
      obtain ⟨hd, cuts1, d1⟩ := trio
      obtain ⟨hlen, hhd, hd1⟩ := recvExact_ok_spec _ _ _ _ _ _ hh
      rw [take_append_of_length 4 _ _ (encodeIntLE_length 4 w)] at hhd
      rw [drop_append_of_length 4 _ _ (encodeIntLE_length 4 w)] at hd1
      subst hhd
      subst hd1
      simp only
      rw [if_neg (by simp [hlen]), hdecw]
      rw [if_pos hwbad]
      simp
  · intro handler s hwok v
    rw [processRequest]
    cases hh : recvExact s.cuts s.data 4 with
    | error e => simp
    | ok trio =>
      obtain ⟨hd, cuts1, d1⟩ := trio
      obtain ⟨hlen, hhd, hd1⟩ := recvExact_ok_spec _ _ _ _ _ _ hh
      subst hhd
      simp only
      rw [if_neg (by simp [hlen])]
      rw [if_neg (not_not_intro hwok)]
      repeat' split
      all_goals simp

/-- C9: `recv_exact` either returns exactly the requested number of bytes or
fails with a connection error, never a short buffer; consequently the header
handed to `struct.unpack` in the serve loop always has exactly 4 bytes and
the `struct.error` branch guarding the header unpack is unreachable. -/
theorem recvExact_never_short :
    (∀ (cuts data : List Nat) (size : Nat) (bs cuts2 rest : List Nat),
      recvExact cuts data size = .ok (bs, cuts2, rest) → bs.length = size) ∧
    (∀ (max_atoms : Nat) (handler : Option HandlerFn) (s : SockSt),
      (processRequest max_atoms handler s).1 ≠ .malformedHeader) := by
  constructor
  · intro cuts data size bs cuts2 rest h
    exact (recvExact_ok_spec cuts data size bs cuts2 rest h).1
  · intro max_atoms handler s
    rw [processRequest]
    cases hh : recvExact s.cuts s.data 4 with
    | error e => simp
    | ok trio =>
      obtain ⟨hd, cuts1, d1⟩ := trio
      have hlen := (recvExact_ok_spec _ _ _ _ _ _ hh).1
      simp only
      rw [if_neg (by simp [hlen])]
      repeat' split
      all_goals simp

/-- Witness for C2: atom count 0 with width tag 4 is rejected with the
handler never invoked. -/
theorem invalidAtomCount_no_handler_witness :
    (((4 : Int) = 4 ∨ (4 : Int) = 8) ∧ ((0 : Int) ≤ 0 ∨ (10 : Int) < 0)) ∧
    ((processRequest 10 (some handlerOk)
        ⟨[99], encodeIntLE 4 4 ++ (encodeIntLE (4 : Int).toNat 0 ++ [])⟩).2.2 = false ∧
     ∀ r, (processRequest 10 (some handlerOk)
        ⟨[99], encodeIntLE 4 4 ++ (encodeIntLE (4 : Int).toNat 0 ++ [])⟩).1 ≠ .replied r) :=
  ⟨⟨by decide, by decide⟩,
   invalidAtomCount_no_handler 10 (some handlerOk) [99] [] 4 0 (by decide) (by decide)
     (by decide) (by decide)⟩

/-- Witness for C6: width tag 5 closes the connection right after the tag
bytes, leaving the payload unread. -/
theorem unsupportedWidth_closes_witness :
    (¬((5 : Int) = 4 ∨ (5 : Int) = 8)) ∧
    ((processRequest 10 (some handlerOk) ⟨[99], encodeIntLE 4 5 ++ [7]⟩).1 = .noHeader ∨
     ((processRequest 10 (some handlerOk) ⟨[99], encodeIntLE 4 5 ++ [7]⟩).1 = .unsupportedWidth 5 ∧
      (processRequest 10 (some handlerOk) ⟨[99], encodeIntLE 4 5 ++ [7]⟩).2.1.data = [7])) :=
  ⟨by decide,
   ((unsupportedWidth_closes 10).1 (some handlerOk) [99] [7] 5 (by decide) (by decide)
     (by decide)).2.2⟩

/-- Witness for C9: a concrete successful `recv_exact` call returns exactly
the requested 4 bytes. -/
theorem recvExact_never_short_witness :
    recvExact [9] [1, 2, 3, 4, 5] 4 = .ok ([1, 2, 3, 4], [], [5]) ∧
    ([1, 2, 3, 4] : List Nat).length = 4 :=
  ⟨by rfl, recvExact_never_short.1 [9] [1, 2, 3, 4, 5] 4 [1, 2, 3, 4] [] [5] (by rfl)⟩

theorem maybeReload_not_requested (load : String → Except Unit HandlerFn)
    (s : ServerState) (h : s.reload_requested = false) :
    maybeReload load s = s := by
  rw [maybeReload, if_pos h]

/-- C3: reload is all-or-nothing.  With the flag set and a model file
configured, a successful load swaps the active handler to the newly loaded
one and clears the flag; a failed load clears the flag and leaves the
previous handler exactly as it was. -/
theorem maybeReload_all_or_nothing (load : String → Except Unit HandlerFn)
    (s : ServerState) (file : String)
    (hreq : s.reload_requested = true) (hfile : s.model_file = some file) :
    (∀ hnew, load file = .ok hnew →
      maybeReload load s = { s with reload_requested := false, handler := some hnew }) ∧
    (∀ e, load file = .error e →
      maybeReload load s = { s with reload_requested := false }) := by
  constructor
  · intro hnew hok
    rw [maybeReload, if_neg (by simp [hreq])]
    simp only [hfile, hok]
  · intro e herr
    rw [maybeReload, if_neg (by simp [hreq])]
    simp only [hfile, herr]

/-- Witness for C3: from a state with a pending reload and a configured file,
one loader that succeeds swaps the handler, one that fails leaves it. -/
theorem maybeReload_all_or_nothing_witness :
    (stateReload.reload_requested = true ∧ stateReload.model_file = some "model.py") ∧
    maybeReload loadOk stateReload =
      { stateReload with reload_requested := false, handler := some handlerOk } ∧
    maybeReload loadBad stateReload = { stateReload with reload_requested := false } :=
  ⟨⟨rfl, rfl⟩,
   (maybeReload_all_or_nothing loadOk stateReload "model.py" rfl rfl).1 handlerOk rfl,
   (maybeReload_all_or_nothing loadBad stateReload "model.py" rfl rfl).2 () rfl⟩

/-- C4: the SIGINT handler updates the last-interrupt timestamp on every
interrupt; within the debounce window of the previous interrupt it sets the
shutdown flag (leaving the reload flag as it was), past the window it sets
the reload flag (leaving the shutdown flag as it was); and a first interrupt
(timestamp still at its initial 0) arriving past the window requests a
reload. -/
theorem sigint_debounce (s : ServerState) (now : Rat) :
    (onSigint now s).last_sigint_ts = now ∧
    (now - s.last_sigint_ts ≤ sigintWindowSec →
      (onSigint now s).shutdown_requested = true ∧
      (onSigint now s).reload_requested = s.reload_requested) ∧
    (sigintWindowSec < now - s.last_sigint_ts →
      (onSigint now s).reload_requested = true ∧
      (onSigint now s).shutdown_requested = s.shutdown_requested) ∧
    (s.last_sigint_ts = 0 → sigintWindowSec < now →
      (onSigint now s).reload_requested = true) := by
  refine ⟨?_, ?_, ?_, ?_⟩
  · rw [onSigint]
    split <;> rfl
  · intro h
    rw [onSigint, if_pos h]
    exact ⟨rfl, rfl⟩
  · intro h
    rw [onSigint, if_neg (not_le.mpr h)]
    exact ⟨rfl, rfl⟩
  · intro h0 h2
    rw [onSigint, if_neg (by rw [h0, sub_zero]; exact not_le.mpr h2)]

/-- Witness for C4: a first interrupt at monotonic time 10 requests a reload
and leaves the shutdown flag untouched. -/
theorem sigint_debounce_witness :
    sigintWindowSec < (10 : Rat) - initState.last_sigint_ts ∧
    ((onSigint 10 initState).reload_requested = true ∧
     (onSigint 10 initState).shutdown_requested = initState.shutdown_requested) :=
  ⟨by norm_num [initState, sigintWindowSec],
   (sigint_debounce initState 10).2.2.1 (by norm_num [initState, sigintWindowSec])⟩

/-- C7 counterexample: after a reload-requesting interrupt at time 10 that is
not yet applied, a second interrupt at time 11 (inside the window) sets the
shutdown flag while the reload flag is still set, so the two flags are not
mutually exclusive over reachable states. -/
theorem both_flags_reachable :
    (onSigint 11 (onSigint 10 initState)).reload_requested = true ∧
    (onSigint 11 (onSigint 10 initState)).shutdown_requested = true := by
  constructor <;> norm_num [onSigint, initState, sigintWindowSec]

/-- C7 amended: each single interrupt event establishes exactly one of the
two flags, leaving the other exactly as it was; mutual exclusion of the
stored flags across events does not hold (see the counterexample), because a
pending unapplied reload survives a later shutdown-escalating interrupt. -/
theorem sigint_sets_exactly_one (s : ServerState) (now : Rat) :
    ((onSigint now s).shutdown_requested = true ∧
     (onSigint now s).reload_requested = s.reload_requested) ∨
    ((onSigint now s).reload_requested = true ∧
     (onSigint now s).shutdown_requested = s.shutdown_requested) := by
  rw [onSigint]
  split
  · exact Or.inl ⟨rfl, rfl⟩
  · exact Or.inr ⟨rfl, rfl⟩

/-- C10: calling `start` while the listening socket already exists returns
immediately and leaves the entire server state — host, port, timeouts, the
running flag, the interrupt flags, and the active handler — unchanged. -/
theorem start_idempotent (fresh : Nat) (s : ServerState) (sid : Nat)
    (h : s.server_socket = some sid) :
    start fresh s = s := by
  rw [start.eq_def, h]

/-- Witness for C10: a second `start` on a bound server changes nothing. -/
theorem start_idempotent_witness :
    stateServing.server_socket = some 1 ∧ start 7 stateServing = stateServing :=
  ⟨rfl, start_idempotent 7 stateServing 1 rfl⟩

theorem processRequest_noData (max_atoms : Nat) (handler : Option HandlerFn)
    (cuts : List Nat) :
    processRequest max_atoms handler ⟨cuts, []⟩ = (.noHeader, ⟨cuts, []⟩, false) := by
  obtain ⟨e, he⟩ := recvExact_nil_data cuts 4 (by norm_num)
  rw [processRequest]
  simp only [he]

theorem processRequest_headerOnly (max_atoms : Nat) (handler : Option HandlerFn)
    (cuts hd cuts1 d1 : List Nat) (w : Int) (hw : w = 4 ∨ w = 8)
    (hrecv : recvExact cuts (encodeIntLE 4 w) 4 = .ok (hd, cuts1, d1)) :
    processRequest max_atoms handler ⟨cuts, encodeIntLE 4 w⟩ =
      (.transportFail, ⟨cuts1, d1⟩, false) := by
  obtain ⟨hlen, hhd, hd1⟩ := recvExact_ok_spec _ _ _ _ _ _ hrecv
  have hA := encodeIntLE_length 4 w
  have hhd2 : hd = encodeIntLE 4 w := by
    rw [hhd, List.take_of_length_le (by omega)]
  have hd12 : d1 = [] := by
    rw [hd1, List.drop_eq_nil_of_le (by omega)]
  subst hhd2
  have hw0 : w.toNat ≠ 0 := by rcases hw with h | h <;> subst h <;> norm_num
  obtain ⟨e2, he2⟩ := recvExact_nil_data cuts1 w.toNat hw0
  rw [processRequest]
  simp only [hrecv]
  rw [if_neg (by simp [hlen])]
  rw [width_tag_in_int32 w hw]
  rw [if_neg (not_not_intro hw)]
  rw [hd12]
  simp only [he2]

/-- C5: a request on which the active handler raises is connection-fatal but
never server-fatal: the serve loop writes no response for it, closes that
connection with a `handlerFail`, leaves the whole server state (including the
active handler reference) unchanged, and the accept loop goes on to serve the
remaining scheduled connections. -/
theorem handlerError_connection_fatal (load : String → Except Unit HandlerFn)
    (st : ServerState) (f : RequestFrame) (hf : HandlerFn)
    (rest : List (Option SockSt)) (acc : List (List (List Nat) × ConnEnd))
    (fuel cfuel : Nat)
    (h1 : st.running = true) (h2 : st.shutdown_requested = false)
    (h3 : st.reload_requested = false) (h4 : st.handler = some hf)
    (h5 : f.wf st.max_atoms)
    (h6 : hf f.atomic_numbers f.positions f.contributing = .error ()) :
    serveLoop load (fuel + 1) (cfuel + 1) st
        (some ⟨List.replicate 5 (encode_request f).length, encode_request f⟩ :: rest) acc =
      serveLoop load fuel (cfuel + 1) st rest (acc ++ [([], .req .handlerFail)]) := by
  have hmr : maybeReload load st = st := maybeReload_not_requested load st h3
  rw [serveLoop]
  rw [if_pos (by simp [h1, h2])]
  simp only [hmr]
  rw [connLoop]
  rw [if_pos (by simp [h1, h2])]
  simp only [hmr, h4]
  rw [processRequest_encode st.max_atoms f h5 (some hf)]
  simp only [h6]

/-- Witness for C5: a handler that always raises closes the connection with
no response and the loop proceeds with the same state. -/
theorem handlerError_connection_fatal_witness :
    (stateServing.running = true ∧ stateServing.shutdown_requested = false ∧
     stateServing.reload_requested = false ∧ stateServing.handler = some handlerBad ∧
     frame0.wf stateServing.max_atoms ∧
     handlerBad frame0.atomic_numbers frame0.positions frame0.contributing = .error ()) ∧
    serveLoop loadBad 1 1 stateServing
        (some ⟨List.replicate 5 (encode_request frame0).length, encode_request frame0⟩ :: []) [] =
      serveLoop loadBad 0 1 stateServing [] ([] ++ [([], .req .handlerFail)]) :=
  ⟨⟨rfl, rfl, rfl, rfl, by decide, rfl⟩,
   handlerError_connection_fatal loadBad stateServing frame0 handlerBad [] [] 0 0
     rfl rfl rfl rfl (by decide) rfl⟩

/-- C8: a peer that sends the 4-byte width header and closes before the
`n_atoms` bytes arrive only costs that one connection: the serve loop records
a transport-failure close with no responses and continues, with unchanged
state, to the remaining scheduled connections; a peer that disconnects
cleanly before sending anything likewise ends the connection normally. -/
theorem shortHeader_keeps_serving (load : String → Except Unit HandlerFn)
    (st : ServerState)
    (h1 : st.running = true) (h2 : st.shutdown_requested = false)
    (h3 : st.reload_requested = false) :
    (∀ (w : Int), (w = 4 ∨ w = 8) →
      ∀ (cuts hd cuts1 d1 : List Nat),
        recvExact cuts (encodeIntLE 4 w) 4 = .ok (hd, cuts1, d1) →
        ∀ (rest : List (Option SockSt)) (acc : List (List (List Nat) × ConnEnd))
          (fuel cfuel : Nat),
          serveLoop load (fuel + 1) (cfuel + 1) st (some ⟨cuts, encodeIntLE 4 w⟩ :: rest) acc =
            serveLoop load fuel (cfuel + 1) st rest (acc ++ [([], .req .transportFail)])) ∧
    (∀ (cuts : List Nat) (rest : List (Option SockSt))
       (acc : List (List (List Nat) × ConnEnd)) (fuel cfuel : Nat),
      serveLoop load (fuel + 1) (cfuel + 1) st (some ⟨cuts, []⟩ :: rest) acc =
        serveLoop load fuel (cfuel + 1) st rest (acc ++ [([], .req .noHeader)])) := by
  have hmr : maybeReload load st = st := maybeReload_not_requested load st h3
  constructor
  · intro w hw cuts hd cuts1 d1 hrecv rest acc fuel cfuel
    rw [serveLoop, if_pos (by simp [h1, h2])]
    simp only [hmr]
    rw [connLoop, if_pos (by simp [h1, h2])]
    simp only [hmr]
    rw [processRequest_headerOnly st.max_atoms st.handler cuts hd cuts1 d1 w hw hrecv]
  · intro cuts rest acc fuel cfuel
    rw [serveLoop, if_pos (by simp [h1, h2])]
    simp only [hmr]
    rw [connLoop, if_pos (by simp [h1, h2])]
    simp only [hmr]
    rw [processRequest_noData st.max_atoms st.handler cuts]

/-- Witness for C8: width tag 4 followed by a close yields one
transport-failed connection and the loop moves on; an immediate close yields
a normal no-header end. -/
theorem shortHeader_keeps_serving_witness :
    (recvExact [9, 9] (encodeIntLE 4 4) 4 = .ok (encodeIntLE 4 4, [9], []) ∧
     serveLoop loadBad 1 1 stateServing (some ⟨[9, 9], encodeIntLE 4 4⟩ :: []) [] =
       serveLoop loadBad 0 1 stateServing [] ([] ++ [([], .req .transportFail)])) ∧
    serveLoop loadBad 1 1 stateServing (some ⟨[9], []⟩ :: []) [] =
      serveLoop loadBad 0 1 stateServing [] ([] ++ [([], .req .noHeader)]) :=
  ⟨⟨by rfl,
    (shortHeader_keeps_serving loadBad stateServing rfl rfl rfl).1 4 (by decide)
      [9, 9] (encodeIntLE 4 4) [9] [] (by rfl) [] [] 0 0⟩,
   (shortHeader_keeps_serving loadBad stateServing rfl rfl rfl).2 [9] [] [] 0 0⟩
